import Mathlib

/-!
Shallow embedding of the VF2Layout analysis pass from
src/qiskit/transpiler/passes/layout/vf2_layout.py.

The matching engine (rustworkx vf2_mapping) is an external collaborator and is
embedded as the list of candidate mappings it yields, each mapping being a list
of pairs (coupling-graph node index, interaction-graph node index).  Wall-clock
time is embedded as a function from the trial counter to the elapsed time
observed after that trial.  The helper functions of vf2_utils and the Layout
class are code of the repository that is not among the given sources; they are
modelled from the spec (see the individual doc comments).
-/

/-- Stop reasons for the VF2Layout pass (class VF2LayoutStopReason). -/
inductive VF2LayoutStopReason where
  | SOLUTION_FOUND
  | NO_SOLUTION_FOUND
  | MORE_THAN_2Q
  deriving DecidableEq

/-- A graph given by its node count (nodes are indices below numNodes) and a
list of directed edges, mirroring a rustworkx graph's node indices and
edge_list. -/
structure Graph where
  numNodes : Nat
  edges : List (Nat × Nat)
  deriving DecidableEq

/-- A candidate mapping yielded by the matching engine: pairs
(coupling-graph node index, interaction-graph node index), the items of the
dict yielded by vf2_mapping. -/
abbrev Mapping := List (Nat × Nat)

/-- Modelled from the spec: a Layout (class qiskit.transpiler.layout.Layout,
not among the given sources) is a finite map from logical qubit identifiers to
physical qubit indices, embedded as an association list. -/
abbrev Layout := List (Nat × Nat)

/-- Lookup in an association list with Nat keys; the first matching entry
wins, as in a Python dict built by successive insertion. -/
def lookupAssoc (l : List (Nat × Nat)) (k : Nat) : Option Nat :=
  match l with
  | [] => none
  | (a, b) :: rest => if a = k then some b else lookupAssoc rest k

/-- Lookup of a per-qubit calibration value. -/
def lookupQubitErr (l : List (Nat × ℚ)) (k : Nat) : Option ℚ :=
  match l with
  | [] => none
  | (a, b) :: rest => if a = k then some b else lookupQubitErr rest k

/-- Lookup of a per-edge calibration or error-map value. -/
def lookupEdgeErr (l : List ((Nat × Nat) × ℚ)) (k : Nat × Nat) : Option ℚ :=
  match l with
  | [] => none
  | (a, b) :: rest => if a = k then some b else lookupEdgeErr rest k

/-- Calibration data: per-qubit readout errors and per-edge two-qubit gate
errors (the parts of BackendProperties and Target the pass reads). -/
structure Calibration where
  readout : List (Nat × ℚ)
  twoq : List ((Nat × Nat) × ℚ)
  deriving DecidableEq

/-- A target device description: a coupling graph builder result plus
calibration data; when given it supersedes properties and coupling_map. -/
structure Target where
  couplingGraph : Graph
  calibration : Calibration
  deriving DecidableEq

/-- Modelled from the spec: an ErrorMap maps physical-qubit pairs to error
estimates, with a default value for pairs lacking data. -/
structure ErrorMap where
  entries : List ((Nat × Nat) × ℚ)
  defaultError : ℚ
  deriving DecidableEq

/-- The list of available calibration components for one coupling edge: the
two-qubit gate error of the edge and the readout errors of its endpoints,
keeping only the present ones. -/
def availableParts (cal : Calibration) (e : Nat × Nat) : List ℚ :=
  (match lookupEdgeErr cal.twoq e with
    | some v => [v]
    | none => []) ++
  (match lookupQubitErr cal.readout e.1 with
    | some v => [v]
    | none => []) ++
  (match lookupQubitErr cal.readout e.2 with
    | some v => [v]
    | none => [])

/-- Aggregate error estimate for one coupling edge: the mean of the available
calibration components; none when no component is available. -/
def edgeAverageError (cal : Calibration) (e : Nat × Nat) : Option ℚ :=
  match availableParts cal e with
  | [] => none
  | parts => some (parts.sum / (parts.length : ℚ))

/-- The averaged-error entries for a list of coupling edges; edges without
any calibration component are skipped and fall to the map default. -/
def averagedEntries (cal : Calibration) : List (Nat × Nat) → List ((Nat × Nat) × ℚ)
  | [] => []
  | e :: rest =>
      match edgeAverageError cal e with
      | some v => (e, v) :: averagedEntries cal rest
      | none => averagedEntries cal rest

/-- Modelled from the spec: vf2_utils.build_average_error_map (not among the
given sources) aggregates per-qubit and per-edge hardware error estimates into
one averaged error per coupling-graph edge; the target's calibration
supersedes properties; edges lacking data fall to the map's default. -/
def build_average_error_map (target : Option Target) (properties : Option Calibration)
    (cm : Graph) : ErrorMap :=
  let cal := match target with
    | some t => some t.calibration
    | none => properties
  match cal with
  | none => { entries := [], defaultError := 1 }
  | some c => { entries := averagedEntries c cm.edges, defaultError := 1 }

/-- A circuit operation graph: each operation is the ordered list of its
operand qubit identifiers, and qregs lists the declared registers as lists of
qubit identifiers. -/
structure DAGCircuit where
  ops : List (List Nat)
  qregs : List (List Nat)
  deriving DecidableEq

/-- The pairs of distinct qubits touched together by a two-qubit operation,
in circuit order. -/
def twoQubitPairs : List (List Nat) → List (Nat × Nat)
  | [] => []
  | op :: rest =>
      match op with
      | [a, b] => if a = b then twoQubitPairs rest else (a, b) :: twoQubitPairs rest
      | _ => twoQubitPairs rest

/-- Whether some operation touches more than two qubits. -/
def hasBigOp (ops : List (List Nat)) : Bool :=
  ops.any (fun op => decide (2 < op.length))

/-- Append a qubit to the node list if it is not already present. -/
def addNode (acc : List Nat) (q : Nat) : List Nat :=
  if q ∈ acc then acc else acc ++ [q]

/-- The interaction-graph node list: qubits touched by two-qubit operations,
in order of first appearance; the position of a qubit in this list is its
interaction-graph node index. -/
def interactionNodes (ops : List (List Nat)) : List Nat :=
  (twoQubitPairs ops).foldl (fun acc p => addNode (addNode acc p.1) p.2) []

/-- Node index of a qubit in the node list (first occurrence). -/
def nodeIndex (nodes : List Nat) (q : Nat) : Nat :=
  match nodes with
  | [] => 0
  | x :: rest => if x = q then 0 else nodeIndex rest q + 1

/-- Add an interaction edge, collapsing duplicates (and, when the matching is
not direction-aware, reversed duplicates). -/
def addInteractionEdge (strict : Bool) (es : List (Nat × Nat)) (e : Nat × Nat) :
    List (Nat × Nat) :=
  if e ∈ es then es
  else if strict = false ∧ (e.2, e.1) ∈ es then es
  else es ++ [e]

/-- The interaction-graph edge list over node indices. -/
def interactionEdges (strict : Bool) (nodes : List Nat) (pairs : List (Nat × Nat)) :
    List (Nat × Nat) :=
  pairs.foldl (fun es p => addInteractionEdge strict es (nodeIndex nodes p.1, nodeIndex nodes p.2)) []

/-- Modelled from the spec: vf2_utils.build_interaction_graph (not among the
given sources) walks the circuit's operations and emits an undirected simple
graph with one node per qubit touched by a two-qubit operation and one edge
per distinct interacting pair; it returns none when some operation touches
more than two qubits.  The returned node list encodes both the node map
(position of a qubit) and the reverse node map (qubit at a position). -/
def build_interaction_graph (dag : DAGCircuit) (strict : Bool) :
    Option (Graph × List Nat) :=
  if hasBigOp dag.ops then none
  else
    let nodes := interactionNodes dag.ops
    some (⟨nodes.length, interactionEdges strict nodes (twoQubitPairs dag.ops)⟩, nodes)

/-- Offset used by the seeded node permutation. -/
def seedOffset (seed : Int) (n : Nat) : Nat :=
  if n = 0 then 0 else seed.toNat % n

/-- Modelled from the spec: vf2_utils.shuffle_coupling_graph (not among the
given sources) relabels coupling-graph nodes by a deterministic seeded
permutation (embedded as a rotation derived from the seed; the spec fixes
only determinism, not the permutation), returning the relabeled graph and the
table cm_nodes from new node index to original physical qubit index.  The
seed -1 is the no-shuffle sentinel and yields the identity. -/
def shuffle_coupling_graph (cm : Graph) (seed : Int) (strict_direction : Bool) :
    Graph × (Nat → Nat) :=
  if seed = -1 then (cm, fun i => i)
  else
    let n := cm.numNodes
    let k := seedOffset seed n
    let inv : Nat → Nat := fun o => (o + (n - k)) % n
    (⟨n, cm.edges.map (fun e => (inv e.1, inv e.2))⟩, fun i => (i + k) % n)

/-- Error-map lookup for a physical pair; when the matching is not
direction-aware the reversed pair is also consulted; missing pairs fall to
the default. -/
def lookupErr (em : ErrorMap) (strict : Bool) (p q : Nat) : ℚ :=
  match lookupEdgeErr em.entries (p, q) with
  | some v => v
  | none =>
      if strict then em.defaultError
      else
        match lookupEdgeErr em.entries (q, p) with
        | some v => v
        | none => em.defaultError

/-- Modelled from the spec: vf2_utils.score_layout (not among the given
sources) sums, over the interaction-graph edges, the error-map value of the
physical pair the layout assigns to the edge; lower is better. -/
def score_layout (em : ErrorMap) (layout : Layout) (nodes : List Nat) (img : Graph)
    (strict : Bool) : ℚ :=
  img.edges.foldl (fun acc e =>
    acc + lookupErr em strict ((lookupAssoc layout (nodes.getD e.1 0)).getD 0)
      ((lookupAssoc layout (nodes.getD e.2 0)).getD 0)) 0

/-- The Layout built from one engine mapping: logical qubit (reverse node map
of the im node) maps to physical qubit cm_nodes of the cm node, as in the dict
comprehension of VF2Layout.run. -/
def mkLayout (nodes : List Nat) (cmNodes : Nat → Nat) (m : Mapping) : Layout :=
  m.map (fun p => (nodes.getD p.2 0, cmNodes p.1))

/-- Smallest physical qubit index not among the used ones. -/
def smallestFree (used : List Nat) : Nat :=
  ((List.range (used.length + 1)).filter (fun n => ! used.contains n)).headD 0

/-- Modelled from the spec: Layout.add_register assigns every register qubit
not already present in the layout to an arbitrary unused physical qubit
(embedded as the smallest free index). -/
def add_register (l : Layout) (reg : List Nat) : Layout :=
  reg.foldl (fun acc q =>
    if (lookupAssoc acc q).isSome then acc
    else acc ++ [(q, smallestFree (acc.map Prod.snd))]) l

/-- The published layout: the chosen layout extended with every declared
register (the add_register loop at the end of VF2Layout.run). -/
def extendLayout (l : Layout) (qregs : List (List Nat)) : Layout :=
  qregs.foldl add_register l

/-- The VF2Layout pass instance state: the fields set by VF2Layout.__init__,
with coupling_map already resolved from target when a target was given. -/
structure VF2Layout where
  coupling_map : Option Graph
  strict_direction : Bool
  seed : Int
  call_limit : Option Nat
  time_limit : Option ℚ
  properties : Option Calibration
  max_trials : Option Int
  target : Option Target
  avg_error_map : Option ErrorMap
  deriving DecidableEq

/-- State of the trial loop of VF2Layout.run. -/
structure LoopState where
  trials : Nat
  score_calls : Nat
  chosen_layout : Option Layout
  chosen_score : Option ℚ
  deriving DecidableEq

/-- One retention step of the trial loop: keep the candidate if it is the
first one or strictly improves on the best score so far.  When the retained
layout exists but its score is absent the comparison in the source would
fail; that state is unreachable from the initial loop state and is kept
unchanged here. -/
def updateBest (chosen_layout : Option Layout) (chosen_score : Option ℚ)
    (layout : Layout) (layout_score : ℚ) : Option Layout × Option ℚ :=
  match chosen_layout with
  | none => (some layout, some layout_score)
  | some best =>
      match chosen_score with
      | some best_score =>
          if layout_score < best_score then (some layout, some layout_score)
          else (some best, some best_score)
      | none => (some best, none)

/-- The max_trials termination predicate of VF2Layout.run: configured,
positive and reached by the trial counter. -/
def capReached (mt : Option Int) (trials : Nat) : Bool :=
  match mt with
  | none => false
  | some t => decide (0 < t) && decide (t ≤ (trials : Int))

/-- The time_limit termination predicate of VF2Layout.run. -/
def timeExceeded (tl : Option ℚ) (elapsed : ℚ) : Bool :=
  match tl with
  | none => false
  | some t => decide (t ≤ elapsed)

/-- The trial loop of VF2Layout.run: consume candidate mappings, build the
layout of each, accept immediately on equal node counts, otherwise score and
retain the best, stopping on the max_trials or time_limit predicates. -/
def trialLoop (cmg img : Graph) (nodes : List Nat) (cmNodes : Nat → Nat) (em : ErrorMap)
    (strict : Bool) (mt : Option Int) (tl : Option ℚ) (clock : Nat → ℚ) :
    List Mapping → LoopState → LoopState
  | [], s => s
  | m :: rest, s =>
      let trials := s.trials + 1
      let layout := mkLayout nodes cmNodes m
      if cmg.numNodes = img.numNodes then
        { s with trials := trials, chosen_layout := some layout }
      else
        let layout_score := score_layout em layout nodes img strict
        let u := updateBest s.chosen_layout s.chosen_score layout layout_score
        let s' : LoopState := { trials := trials, score_calls := s.score_calls + 1,
                                chosen_layout := u.1, chosen_score := u.2 }
        if capReached mt trials then s'
        else if timeExceeded tl (clock trials) then s'
        else trialLoop cmg img nodes cmNodes em strict mt tl clock rest s'

/-- The derived trial cap of VF2Layout.run: when none of max_trials,
call_limit and time_limit is configured, max of the two edge counts plus 15;
otherwise the configured max_trials. -/
def effectiveMaxTrials (st : VF2Layout) (img cm : Graph) : Option Int :=
  if st.max_trials.isNone && st.call_limit.isNone && st.time_limit.isNone then
    some ((max img.edges.length cm.edges.length + 15 : Nat) : Int)
  else st.max_trials

/-- Observable outcome of one invocation of VF2Layout.run: the published
property-set entries (layout is none when the key is absent), the loop
counters, the retained pre-extension layout and its score, the effective
budget and error map the search used, and the pass state after the call. -/
structure RunResult where
  layout : Option Layout
  stop_reason : VF2LayoutStopReason
  trials : Nat
  score_calls : Nat
  chosen_layout : Option Layout
  chosen_score : Option ℚ
  used_max_trials : Option Int
  used_error_map : ErrorMap
  post : VF2Layout
  deriving DecidableEq

/-- The search phase of VF2Layout.run, entered once the interaction graph has
been built: shuffle the coupling graph, derive the default trial cap (stored
on the instance, as in the source), run the trial loop and publish. -/
def searchResult (st1 : VF2Layout) (aem : ErrorMap) (cm img : Graph) (nodes : List Nat)
    (dag : DAGCircuit) (mappings : List Mapping) (clock : Nat → ℚ) : RunResult :=
  let sh := shuffle_coupling_graph cm st1.seed st1.strict_direction
  let mt := effectiveMaxTrials st1 img cm
  let st2 : VF2Layout := { st1 with max_trials := mt }
  let final := trialLoop sh.1 img nodes sh.2 aem st1.strict_direction mt st1.time_limit clock
      mappings { trials := 0, score_calls := 0, chosen_layout := none, chosen_score := none }
  { layout := final.chosen_layout.map (fun cl => extendLayout cl dag.qregs),
    stop_reason := if final.chosen_layout.isSome then VF2LayoutStopReason.SOLUTION_FOUND
      else VF2LayoutStopReason.NO_SOLUTION_FOUND,
    trials := final.trials, score_calls := final.score_calls,
    chosen_layout := final.chosen_layout, chosen_score := final.chosen_score,
    used_max_trials := mt, used_error_map := aem, post := st2 }

/-- VF2Layout.run: raise when no coupling map is available, lazily build and
cache the average error map, build the interaction graph (aborting with
MORE_THAN_2Q on operations with more than two qubits), then run the search
phase over the engine's candidate stream. -/
def VF2Layout.run (st : VF2Layout) (dag : DAGCircuit) (mappings : List Mapping)
    (clock : Nat → ℚ) : Except String RunResult :=
  match st.coupling_map with
  | none => Except.error "coupling_map or target must be specified."
  | some cm =>
      let aem := st.avg_error_map.getD (build_average_error_map st.target st.properties cm)
      let st1 : VF2Layout := { st with avg_error_map := some aem }
      match build_interaction_graph dag st1.strict_direction with
      | none =>
          Except.ok
            { layout := none, stop_reason := VF2LayoutStopReason.MORE_THAN_2Q,
              trials := 0, score_calls := 0, chosen_layout := none, chosen_score := none,
              used_max_trials := st1.max_trials, used_error_map := aem, post := st1 }
      | some im => Except.ok (searchResult st1 aem cm im.1 im.2 dag mappings clock)

/-- Direction-aware edge membership: a coupling constraint between p and q,
the reversed edge counting when the matching is not direction-aware. -/
def isEdge (g : Graph) (strict : Bool) (p q : Nat) : Prop :=
  (p, q) ∈ g.edges ∨ (strict = false ∧ (q, p) ∈ g.edges)

instance (g : Graph) (strict : Bool) (p q : Nat) : Decidable (isEdge g strict p q) := by
  unfold isEdge
  infer_instance

/-- A valid subgraph embedding as produced by the matching engine: an
injective assignment of a coupling-graph node to every interaction-graph node
such that every interaction edge lands on a coupling edge (direction-aware
iff strict). -/
def validEmbedding (cmg img : Graph) (strict : Bool) (m : Mapping) : Prop :=
  (m.map Prod.snd).Nodup ∧
  (∀ p ∈ m, p.2 < img.numNodes) ∧
  (∀ e ∈ img.edges, ∃ p ∈ m, ∃ q ∈ m, p.2 = e.1 ∧ q.2 = e.2 ∧ isEdge cmg strict p.1 q.1)

instance (cmg img : Graph) (strict : Bool) (m : Mapping) :
    Decidable (validEmbedding cmg img strict m) := by
  unfold validEmbedding
  infer_instance

/-- A 3-node linear coupling graph with edges (0,1) and (1,2). -/
def cm0 : Graph := ⟨3, [(0, 1), (1, 2)]⟩

/-- A 3-qubit circuit with two-qubit operations on pairs (0,1) and (1,2) and
one declared 3-qubit register. -/
def dag0 : DAGCircuit := ⟨[[0, 1], [1, 2]], [[0, 1, 2]]⟩

/-- A circuit containing a 3-qubit operation. -/
def dag3q : DAGCircuit := ⟨[[0, 1, 2]], [[0, 1, 2]]⟩

/-- A 2-qubit circuit with one two-qubit operation. -/
def dag1 : DAGCircuit := ⟨[[0, 1]], [[0, 1]]⟩

/-- A base pass instance: cm0 as coupling map, no shuffle, no budgets, no
calibration. -/
def stA : VF2Layout :=
  { coupling_map := some cm0, strict_direction := false, seed := -1, call_limit := none,
    time_limit := none, properties := none, max_trials := none, target := none,
    avg_error_map := none }

/-- A concrete error map: edge (0,1) scores 3 and edge (1,2) scores 5. -/
def em0 : ErrorMap := ⟨[((0, 1), 3), ((1, 2), 5)], 1⟩

/-- The base instance with a cached error map and a configured trial cap. -/
def st10 (t : Int) : VF2Layout :=
  { stA with avg_error_map := some em0, max_trials := some t }

/-- The identity embedding of the 3-node interaction graph of dag0 into cm0. -/
def ms0 : List Mapping := [[(0, 0), (1, 1), (2, 2)]]

/-- Two embeddings of the single-edge interaction graph of dag1 into cm0: the
first lands on physical pair (1,2) (score 5 under em0), the second on (0,1)
(score 3). -/
def ms10 : List Mapping := [[(1, 0), (2, 1)], [(0, 0), (1, 1)]]

/-- A nonempty calibration dataset. -/
def cal1 : Calibration := ⟨[(0, 1/2), (1, 1/4)], [((0, 1), 1/2)]⟩

/-- A constant zero clock: no elapsed time is ever observed. -/
def clk0 : Nat → ℚ := fun _ => 0

/-- The base instance with a cached error map and nonempty calibration data:
the cached map disagrees with what the calibration inputs would produce. -/
def st8 : VF2Layout := { stA with avg_error_map := some em0, properties := some cal1 }

/-- The state of the base instance after one invocation on dag0: the error
map is cached and the derived trial cap is persisted. -/
def stA' : VF2Layout := { stA with avg_error_map := some ⟨[], 1⟩, max_trials := some 17 }

/-- Observable outcome of run as an Option (none when run raised). -/
def runOutcome (st : VF2Layout) (dag : DAGCircuit) (ms : List Mapping) (clock : Nat → ℚ) :
    Option RunResult :=
  (VF2Layout.run st dag ms clock).toOption

/-- The published stop reason of one invocation. -/
def runStop (st : VF2Layout) (dag : DAGCircuit) (ms : List Mapping) (clock : Nat → ℚ) :
    Option VF2LayoutStopReason :=
  (runOutcome st dag ms clock).map (fun r => r.stop_reason)

/-- The published layout key of one invocation (inner none when the key is
absent from the property set). -/
def runLayoutKey (st : VF2Layout) (dag : DAGCircuit) (ms : List Mapping) (clock : Nat → ℚ) :
    Option (Option Layout) :=
  (runOutcome st dag ms clock).map (fun r => r.layout)

/-- The trial counter of one invocation. -/
def runTrials (st : VF2Layout) (dag : DAGCircuit) (ms : List Mapping) (clock : Nat → ℚ) :
    Option Nat :=
  (runOutcome st dag ms clock).map (fun r => r.trials)

/-- The number of scorer calls of one invocation. -/
def runScoreCalls (st : VF2Layout) (dag : DAGCircuit) (ms : List Mapping) (clock : Nat → ℚ) :
    Option Nat :=
  (runOutcome st dag ms clock).map (fun r => r.score_calls)

/-- The retained pre-extension layout of one invocation. -/
def runChosenLayout (st : VF2Layout) (dag : DAGCircuit) (ms : List Mapping) (clock : Nat → ℚ) :
    Option (Option Layout) :=
  (runOutcome st dag ms clock).map (fun r => r.chosen_layout)

/-- The score of the finally chosen layout (none when run raised, when no
candidate was retained, or when the equal-size shortcut skipped scoring). -/
def chosenScoreOf (st : VF2Layout) (dag : DAGCircuit) (ms : List Mapping) (clock : Nat → ℚ) :
    Option ℚ :=
  (runOutcome st dag ms clock).bind (fun r => r.chosen_score)

/-- The effective trial cap the search used in one invocation. -/
def runUsedMaxTrials (st : VF2Layout) (dag : DAGCircuit) (ms : List Mapping) (clock : Nat → ℚ) :
    Option (Option Int) :=
  (runOutcome st dag ms clock).map (fun r => r.used_max_trials)

/-- The error map the search used in one invocation. -/
def runUsedErrorMap (st : VF2Layout) (dag : DAGCircuit) (ms : List Mapping) (clock : Nat → ℚ) :
    Option ErrorMap :=
  (runOutcome st dag ms clock).map (fun r => r.used_error_map)

/-- The pass instance state after one invocation. -/
def runPost (st : VF2Layout) (dag : DAGCircuit) (ms : List Mapping) (clock : Nat → ℚ) :
    Option VF2Layout :=
  (runOutcome st dag ms clock).map (fun r => r.post)

/-- The error map one invocation works with: the cached one when present,
otherwise freshly built from the instance's inputs. -/
def effectiveErrorMap (st : VF2Layout) (cm : Graph) : ErrorMap :=
  st.avg_error_map.getD (build_average_error_map st.target st.properties cm)

/-- The instance state after the lazy error-map caching step of run. -/
def cacheErrorMap (st : VF2Layout) (aem : ErrorMap) : VF2Layout :=
  { st with avg_error_map := some aem }

theorem run_enters_search (st : VF2Layout) (cm img : Graph) (nodes : List Nat)
    (dag : DAGCircuit) (ms : List Mapping) (clock : Nat → ℚ)
    (hcm : st.coupling_map = some cm)
    (hbuild : build_interaction_graph dag st.strict_direction = some (img, nodes)) :
    VF2Layout.run st dag ms clock =
      Except.ok (searchResult (cacheErrorMap st (effectiveErrorMap st cm))
        (effectiveErrorMap st cm) cm img nodes dag ms clock) := by
  simp only [VF2Layout.run, hcm, hbuild, effectiveErrorMap, cacheErrorMap]

/-- C2: for every circuit containing an operation on 3 or more qubits, run
sets the stop reason to MORE_THAN_2Q and writes no layout key, regardless of
the topology; the search phase (shuffle, matching, scoring) is never entered:
no trial is counted and the scorer is never called. -/
theorem vf2_run_more_than_2q (st : VF2Layout) (cm : Graph) (dag : DAGCircuit)
    (ms : List Mapping) (clock : Nat → ℚ) (op : List Nat)
    (hcm : st.coupling_map = some cm) (hop : op ∈ dag.ops) (hlen : 3 ≤ op.length) :
    runStop st dag ms clock = some VF2LayoutStopReason.MORE_THAN_2Q ∧
    runLayoutKey st dag ms clock = some none ∧
    runTrials st dag ms clock = some 0 ∧
    runScoreCalls st dag ms clock = some 0 := by
  have hbig : hasBigOp dag.ops = true := by
    unfold hasBigOp
    rw [List.any_eq_true]
    exact ⟨op, hop, by simpa using hlen⟩
  have hbuild : build_interaction_graph dag st.strict_direction = none := by
    simp [build_interaction_graph, hbig]
  unfold runStop runLayoutKey runTrials runScoreCalls runOutcome
  simp only [VF2Layout.run, hcm, hbuild]
  simp [Except.toOption]

/-- C2 witness: a 3-qubit operation aborts the base instance with
MORE_THAN_2Q and no layout key. -/
theorem vf2_run_more_than_2q_witness :
    runStop stA dag3q [] clk0 = some VF2LayoutStopReason.MORE_THAN_2Q ∧
    runLayoutKey stA dag3q [] clk0 = some none ∧
    runTrials stA dag3q [] clk0 = some 0 ∧
    runScoreCalls stA dag3q [] clk0 = some 0 :=
  vf2_run_more_than_2q stA cm0 dag3q [] clk0 [0, 1, 2] rfl (by decide) (by decide)

/-- C5: in the unequal-size case each trial retains the candidate exactly
when it is the first candidate or its score is strictly lower than the best
score so far; on an equal score the earlier candidate is kept.  The trial
loop performs this retention through updateBest. -/
theorem vf2_trial_retention (cmg img : Graph) (nodes : List Nat) (f : Nat → Nat)
    (em : ErrorMap) (strict : Bool) (clock : Nat → ℚ) (m : Mapping) (s : LoopState)
    (bl cand : Layout) (bs sc : ℚ)
    (hne : cmg.numNodes ≠ img.numNodes) :
    (trialLoop cmg img nodes f em strict none none clock [m] s).chosen_layout =
      (updateBest s.chosen_layout s.chosen_score (mkLayout nodes f m)
        (score_layout em (mkLayout nodes f m) nodes img strict)).1 ∧
    updateBest none none cand sc = (some cand, some sc) ∧
    (sc < bs → updateBest (some bl) (some bs) cand sc = (some cand, some sc)) ∧
    (¬ sc < bs → updateBest (some bl) (some bs) cand sc = (some bl, some bs)) ∧
    (sc = bs → updateBest (some bl) (some bs) cand sc = (some bl, some bs)) := by
  refine ⟨?_, rfl, ?_, ?_, ?_⟩
  · simp [trialLoop, hne, capReached, timeExceeded]
  · intro h
    simp [updateBest, h]
  · intro h
    simp [updateBest, h]
  · intro h
    subst h
    simp [updateBest]

/-- C5 witness: on an equal score the earlier candidate is kept. -/
theorem vf2_trial_retention_witness :
    updateBest (some []) (some (1 : ℚ)) [(0, 1)] 1 = (some [], some 1) :=
  (vf2_trial_retention cm0 ⟨2, [(0, 1)]⟩ [0, 1] (fun i => i) em0 false clk0
    [(0, 0), (1, 1)] ⟨0, 0, none, none⟩ [] [(0, 1)] 1 1 (by decide)).2.2.2.2 rfl

/-- C6: when none of max_trials, call_limit and time_limit is configured, the
controller uses the derived trial cap max(interaction edge count, coupling
edge count) + 15. -/
theorem vf2_run_default_max_trials (st : VF2Layout) (cm img : Graph) (nodes : List Nat)
    (dag : DAGCircuit) (ms : List Mapping) (clock : Nat → ℚ)
    (hcm : st.coupling_map = some cm)
    (hbuild : build_interaction_graph dag st.strict_direction = some (img, nodes))
    (hmt : st.max_trials = none) (hcl : st.call_limit = none) (htl : st.time_limit = none) :
    runUsedMaxTrials st dag ms clock =
      some (some ((max img.edges.length cm.edges.length + 15 : Nat) : Int)) := by
  unfold runUsedMaxTrials runOutcome
  rw [run_enters_search st cm img nodes dag ms clock hcm hbuild]
  simp [searchResult, effectiveMaxTrials, cacheErrorMap, hmt, hcl, htl, Except.toOption]

/-- C6 witness: on dag0 against cm0 (both with two edges) the derived cap is
17. -/
theorem vf2_run_default_max_trials_witness :
    runUsedMaxTrials stA dag0 ms0 clk0 = some (some 17) := by
  have h := vf2_run_default_max_trials stA cm0 ⟨3, [(0, 1), (1, 2)]⟩ [0, 1, 2] dag0 ms0 clk0
    rfl (by decide) rfl rfl rfl
  exact h

/-- C7 (code bug): run assigns the derived default trial cap to the instance
field max_trials, so the budget is persisted across invocations, contrary to
the claim that budget fields are unchanged after run returns. -/
theorem vf2_run_max_trials_persisted :
    stA.max_trials = none ∧ stA.call_limit = none ∧ stA.time_limit = none ∧
    (runPost stA dag0 ms0 clk0).map (fun s => s.max_trials) = some (some 17) := by
  exact ⟨rfl, rfl, rfl, by decide⟩

/-- C8 counterexample: with a populated cache and changed calibration inputs,
run keeps using the cached error map, which differs from the map the new
inputs would produce; the cache is not recomputed when inputs change. -/
theorem vf2_error_map_not_recomputed_cex :
    st8.properties = some cal1 ∧ st8.avg_error_map = some em0 ∧
    runUsedErrorMap st8 dag0 ms0 clk0 = some em0 ∧
    (runPost st8 dag0 ms0 clk0).map (fun s => s.avg_error_map) = some (some em0) ∧
    build_average_error_map st8.target st8.properties cm0 ≠ em0 := by
  refine ⟨rfl, rfl, by decide, by decide, ?_⟩
  norm_num [build_average_error_map, st8, stA, cal1, cm0, em0, averagedEntries,
    edgeAverageError, availableParts, lookupEdgeErr, lookupQubitErr]

/-- C8 (amended): the ErrorMap cache is instance-scoped state computed once
on the first invocation and reused read-only by every later invocation of the
same pass instance; it is not recomputed when the topology or calibration
inputs change while the cache is populated. -/
theorem vf2_error_map_cached (st : VF2Layout) (cm : Graph) (dag : DAGCircuit)
    (ms : List Mapping) (clock : Nat → ℚ) (m : ErrorMap)
    (hcm : st.coupling_map = some cm) :
    (st.avg_error_map = some m →
      runUsedErrorMap st dag ms clock = some m ∧
      (runPost st dag ms clock).map (fun s => s.avg_error_map) = some (some m)) ∧
    (st.avg_error_map = none →
      runUsedErrorMap st dag ms clock =
        some (build_average_error_map st.target st.properties cm) ∧
      (runPost st dag ms clock).map (fun s => s.avg_error_map) =
        some (some (build_average_error_map st.target st.properties cm))) := by
  unfold runUsedErrorMap runPost runOutcome
  constructor <;> intro h <;> simp only [VF2Layout.run, hcm, h] <;>
    cases hbuild : build_interaction_graph dag st.strict_direction <;>
      simp [hbuild, searchResult, Except.toOption]

/-- C8 witness: with a populated cache the cached map is used and kept. -/
theorem vf2_error_map_cached_witness :
    runUsedErrorMap st8 dag0 ms0 clk0 = some em0 ∧
    (runPost st8 dag0 ms0 clk0).map (fun s => s.avg_error_map) = some (some em0) :=
  (vf2_error_map_cached st8 cm0 dag0 ms0 clk0 em0 rfl).1 rfl

/-- C4: when the coupling graph and the interaction graph have equal node
counts and the engine produces at least one embedding, the first embedding is
accepted immediately as the chosen layout, with no scorer call and exactly
one trial consumed. -/
theorem vf2_run_equal_size_shortcut (st : VF2Layout) (cm img : Graph) (nodes : List Nat)
    (dag : DAGCircuit) (m : Mapping) (rest : List Mapping) (clock : Nat → ℚ)
    (hcm : st.coupling_map = some cm)
    (hbuild : build_interaction_graph dag st.strict_direction = some (img, nodes))
    (hsize : cm.numNodes = img.numNodes) :
    runTrials st dag (m :: rest) clock = some 1 ∧
    runScoreCalls st dag (m :: rest) clock = some 0 ∧
    runChosenLayout st dag (m :: rest) clock =
      some (some (mkLayout nodes (shuffle_coupling_graph cm st.seed st.strict_direction).2 m)) ∧
    runStop st dag (m :: rest) clock = some VF2LayoutStopReason.SOLUTION_FOUND := by
  have hshn : (shuffle_coupling_graph cm st.seed st.strict_direction).1.numNodes =
      cm.numNodes := by
    unfold shuffle_coupling_graph
    split <;> rfl
  unfold runTrials runScoreCalls runChosenLayout runStop runOutcome
  rw [run_enters_search st cm img nodes dag (m :: rest) clock hcm hbuild]
  simp only [searchResult, cacheErrorMap, trialLoop]
  simp [hshn, hsize, Except.toOption]

/-- C4 witness: the end-to-end example accepts the identity embedding in one
trial with no scoring. -/
theorem vf2_run_equal_size_shortcut_witness :
    runTrials stA dag0 ms0 clk0 = some 1 ∧
    runScoreCalls stA dag0 ms0 clk0 = some 0 ∧
    runChosenLayout stA dag0 ms0 clk0 =
      some (some (mkLayout [0, 1, 2] (shuffle_coupling_graph cm0 stA.seed
        stA.strict_direction).2 [(0, 0), (1, 1), (2, 2)])) ∧
    runStop stA dag0 ms0 clk0 = some VF2LayoutStopReason.SOLUTION_FOUND :=
  vf2_run_equal_size_shortcut stA cm0 ⟨3, [(0, 1), (1, 2)]⟩ [0, 1, 2] dag0
    [(0, 0), (1, 1), (2, 2)] [] clk0 rfl (by decide) rfl

/-- The first component of updateBest is always populated. -/
theorem updateBest_fst_isSome (cl : Option Layout) (cs : Option ℚ) (l : Layout) (sc : ℚ) :
    ((updateBest cl cs l sc).1).isSome = true := by
  unfold updateBest
  rcases cl with _ | bl
  · rfl
  · rcases cs with _ | bs
    · rfl
    · dsimp only
      split <;> rfl

/-- Once the trial loop holds a retained layout it never drops it. -/
theorem trialLoop_chosen_isSome (cmg img : Graph) (nodes : List Nat) (f : Nat → Nat)
    (em : ErrorMap) (strict : Bool) (mt : Option Int) (tl : Option ℚ) (clock : Nat → ℚ)
    (ms : List Mapping) :
    ∀ s : LoopState, s.chosen_layout.isSome = true →
      (trialLoop cmg img nodes f em strict mt tl clock ms s).chosen_layout.isSome = true := by
  induction ms with
  | nil =>
      intro s h
      simpa [trialLoop] using h
  | cons m rest ih =>
      intro s h
      rw [trialLoop]
      split
      · simp
      · dsimp only
        split
        · exact updateBest_fst_isSome _ _ _ _
        · split
          · exact updateBest_fst_isSome _ _ _ _
          · exact ih _ (updateBest_fst_isSome _ _ _ _)

/-- A nonempty candidate stream always leaves a retained layout. -/
theorem trialLoop_cons_isSome (cmg img : Graph) (nodes : List Nat) (f : Nat → Nat)
    (em : ErrorMap) (strict : Bool) (mt : Option Int) (tl : Option ℚ) (clock : Nat → ℚ)
    (m : Mapping) (rest : List Mapping) (s : LoopState) :
    (trialLoop cmg img nodes f em strict mt tl clock (m :: rest) s).chosen_layout.isSome =
      true := by
  rw [trialLoop]
  split
  · simp
  · dsimp only
    split
    · exact updateBest_fst_isSome _ _ _ _
    · split
      · exact updateBest_fst_isSome _ _ _ _
      · exact trialLoop_chosen_isSome cmg img nodes f em strict mt tl clock rest _
          (updateBest_fst_isSome _ _ _ _)

/-- C3: for every invocation entering the search phase, the stop reason is
NO_SOLUTION_FOUND exactly when the engine's stream yields zero candidates,
and then no layout key is written; with at least one candidate the stop
reason is SOLUTION_FOUND and the retained best layout, extended over the
circuit's declared registers, is published. -/
theorem vf2_run_search_outcome (st : VF2Layout) (cm img : Graph) (nodes : List Nat)
    (dag : DAGCircuit) (ms : List Mapping) (clock : Nat → ℚ)
    (hcm : st.coupling_map = some cm)
    (hbuild : build_interaction_graph dag st.strict_direction = some (img, nodes)) :
    (runStop st dag ms clock = some VF2LayoutStopReason.NO_SOLUTION_FOUND ↔ ms = []) ∧
    (ms = [] → runLayoutKey st dag ms clock = some none) ∧
    (ms ≠ [] → runStop st dag ms clock = some VF2LayoutStopReason.SOLUTION_FOUND ∧
      ∃ cl, runChosenLayout st dag ms clock = some (some cl) ∧
        runLayoutKey st dag ms clock = some (some (extendLayout cl dag.qregs))) := by
  unfold runStop runLayoutKey runChosenLayout runOutcome
  rw [run_enters_search st cm img nodes dag ms clock hcm hbuild]
  cases ms with
  | nil => simp [searchResult, trialLoop, Except.toOption]
  | cons m rest =>
      have hsome := trialLoop_cons_isSome
        (shuffle_coupling_graph cm (cacheErrorMap st (effectiveErrorMap st cm)).seed
          (cacheErrorMap st (effectiveErrorMap st cm)).strict_direction).1 img nodes
        (shuffle_coupling_graph cm (cacheErrorMap st (effectiveErrorMap st cm)).seed
          (cacheErrorMap st (effectiveErrorMap st cm)).strict_direction).2
        (effectiveErrorMap st cm) (cacheErrorMap st (effectiveErrorMap st cm)).strict_direction
        (effectiveMaxTrials (cacheErrorMap st (effectiveErrorMap st cm)) img cm)
        (cacheErrorMap st (effectiveErrorMap st cm)).time_limit clock m rest
        ⟨0, 0, none, none⟩
      rw [Option.isSome_iff_exists] at hsome
      obtain ⟨cl, hcl⟩ := hsome
      simp [searchResult, Except.toOption, hcl]

/-- C3 witness: a one-candidate stream on the end-to-end example yields
SOLUTION_FOUND and publishes the retained layout extended over the declared
register. -/
theorem vf2_run_search_outcome_witness :
    runStop stA dag0 ms0 clk0 = some VF2LayoutStopReason.SOLUTION_FOUND ∧
    ∃ cl, runChosenLayout stA dag0 ms0 clk0 = some (some cl) ∧
      runLayoutKey stA dag0 ms0 clk0 = some (some (extendLayout cl dag0.qregs)) :=
  (vf2_run_search_outcome stA cm0 ⟨3, [(0, 1), (1, 2)]⟩ [0, 1, 2] dag0 ms0 clk0 rfl
    (by decide)).2.2 (by decide)

/-- Deriving the trial cap is idempotent: an instance whose max_trials field
already holds the effective cap derives the same cap again. -/
theorem effectiveMaxTrials_idem (a : Option Graph) (b : Bool) (c : Int) (d : Option Nat)
    (e : Option ℚ) (f : Option Calibration) (g : Option Int) (h : Option Target)
    (i i' : Option ErrorMap) (img cm : Graph) :
    effectiveMaxTrials (VF2Layout.mk a b c d e f
      (effectiveMaxTrials (VF2Layout.mk a b c d e f g h i) img cm) h i') img cm =
      effectiveMaxTrials (VF2Layout.mk a b c d e f g h i) img cm := by
  unfold effectiveMaxTrials
  by_cases hc : (g.isNone && d.isNone && e.isNone) = true
  · simp [hc]
  · simp [hc]

/-- C9: with the matching engine embedded as a deterministic function of its
graph inputs and the clock fixed, a second invocation of the same pass
instance on the same circuit, stream and budgets publishes the identical
layout and stop reason as the first, despite the state the first invocation
mutated (cached error map, persisted derived trial cap). -/
theorem vf2_run_deterministic_repeat (st st' : VF2Layout) (dag : DAGCircuit)
    (ms : List Mapping) (clock : Nat → ℚ)
    (hpost : runPost st dag ms clock = some st') :
    runStop st' dag ms clock = runStop st dag ms clock ∧
    runLayoutKey st' dag ms clock = runLayoutKey st dag ms clock := by
  rcases hcm : st.coupling_map with _ | cm
  · unfold runPost runOutcome at hpost
    simp [VF2Layout.run, hcm, Except.toOption] at hpost
  · rcases hbuild : build_interaction_graph dag st.strict_direction with _ | im
    · unfold runPost runOutcome at hpost
      simp only [VF2Layout.run, hcm, hbuild, Except.toOption, Option.map_some'] at hpost
      rw [Option.some.injEq] at hpost
      subst hpost
      unfold runStop runLayoutKey runOutcome
      simp [VF2Layout.run, hcm, hbuild, Except.toOption]
    · obtain ⟨img, nodes⟩ := im
      unfold runPost runOutcome at hpost
      rw [run_enters_search st cm img nodes dag ms clock hcm hbuild] at hpost
      simp only [searchResult, Except.toOption, Option.map_some'] at hpost
      rw [Option.some.injEq] at hpost
      subst hpost
      unfold runStop runLayoutKey runOutcome
      rw [run_enters_search st cm img nodes dag ms clock hcm hbuild]
      rw [run_enters_search _ cm img nodes dag ms clock (by simp [cacheErrorMap, hcm])
        (by simp [cacheErrorMap, hbuild])]
      simp only [searchResult, cacheErrorMap, effectiveErrorMap]
      simp [effectiveMaxTrials_idem]

/-- C9 witness: re-running the base instance after its first invocation on
dag0 reproduces the stop reason and layout key. -/
theorem vf2_run_deterministic_repeat_witness :
    runStop stA' dag0 ms0 clk0 = runStop stA dag0 ms0 clk0 ∧
    runLayoutKey stA' dag0 ms0 clk0 = runLayoutKey stA dag0 ms0 clk0 :=
  vf2_run_deterministic_repeat stA stA' dag0 ms0 clk0 (by decide)

theorem addNode_nodup (l : List Nat) (q : Nat) (h : l.Nodup) : (addNode l q).Nodup := by
  unfold addNode
  split
  · exact h
  · next hq => simp [List.nodup_append, h, hq]

theorem foldl_addNode_nodup (ps : List (Nat × Nat)) :
    ∀ acc : List Nat, acc.Nodup →
      (ps.foldl (fun acc p => addNode (addNode acc p.1) p.2) acc).Nodup := by
  induction ps with
  | nil =>
      intro acc h
      simpa using h
  | cons p rest ih =>
      intro acc h
      rw [List.foldl_cons]
      exact ih _ (addNode_nodup _ _ (addNode_nodup _ _ h))

theorem interactionNodes_nodup (ops : List (List Nat)) : (interactionNodes ops).Nodup := by
  unfold interactionNodes
  exact foldl_addNode_nodup _ _ List.nodup_nil

/-- getD on a list without duplicates is injective below the length. -/
theorem getD_inj (l : List Nat) (hl : l.Nodup) :
    ∀ i j, i < l.length → j < l.length → l.getD i 0 = l.getD j 0 → i = j := by
  induction l with
  | nil =>
      intro i j hi _ _
      exact absurd hi (by simp)
  | cons x rest ih =>
      intro i j hi hj hg
      rw [List.nodup_cons] at hl
      cases i with
      | zero =>
          cases j with
          | zero => rfl
          | succ j' =>
              exfalso
              rw [List.getD_cons_zero, List.getD_cons_succ] at hg
              have hjm : rest.getD j' 0 ∈ rest := by
                rw [List.getD_eq_getElem rest 0 (show j' < rest.length by simpa using hj)]
                exact List.getElem_mem _
              exact hl.1 (hg ▸ hjm)
      | succ i' =>
          cases j with
          | zero =>
              exfalso
              rw [List.getD_cons_succ, List.getD_cons_zero] at hg
              have him : rest.getD i' 0 ∈ rest := by
                rw [List.getD_eq_getElem rest 0 (show i' < rest.length by simpa using hi)]
                exact List.getElem_mem _
              exact hl.1 (hg.symm ▸ him)
          | succ j' =>
              rw [List.getD_cons_succ, List.getD_cons_succ] at hg
              have := ih hl.2 i' j' (by simpa using hi) (by simpa using hj) hg
              omega

theorem build_interaction_graph_parts (dag : DAGCircuit) (strict : Bool) (img : Graph)
    (nodes : List Nat) (h : build_interaction_graph dag strict = some (img, nodes)) :
    nodes = interactionNodes dag.ops ∧ img.numNodes = nodes.length := by
  unfold build_interaction_graph at h
  cases hb : hasBigOp dag.ops with
  | true =>
      rw [hb, if_pos rfl] at h
      cases h
  | false =>
      rw [hb, if_neg Bool.false_ne_true] at h
      dsimp only at h
      rw [Option.some.injEq, Prod.mk.injEq] at h
      obtain ⟨h1, h2⟩ := h
      constructor
      · exact h2.symm
      · rw [← h1, ← h2]

theorem lookupAssoc_append (l t : List (Nat × Nat)) (k v : Nat)
    (h : lookupAssoc l k = some v) : lookupAssoc (l ++ t) k = some v := by
  induction l with
  | nil => simp [lookupAssoc] at h
  | cons p rest ih =>
      obtain ⟨a, b⟩ := p
      rw [List.cons_append]
      rw [lookupAssoc] at h ⊢
      by_cases ha : a = k
      · rw [if_pos ha] at h
        rw [if_pos ha]
        exact h
      · rw [if_neg ha] at h
        rw [if_neg ha]
        exact ih h

theorem add_register_append (reg : List Nat) :
    ∀ l : Layout, ∃ t, add_register l reg = l ++ t := by
  induction reg with
  | nil =>
      intro l
      exact ⟨[], by simp [add_register]⟩
  | cons q rest ih =>
      intro l
      obtain ⟨t, ht⟩ := ih (if (lookupAssoc l q).isSome then l
        else l ++ [(q, smallestFree (l.map Prod.snd))])
      unfold add_register at ht ⊢
      by_cases hq : (lookupAssoc l q).isSome = true
      · rw [if_pos hq] at ht
        exact ⟨t, by rw [List.foldl_cons, if_pos hq]; exact ht⟩
      · rw [if_neg hq] at ht
        refine ⟨(q, smallestFree (l.map Prod.snd)) :: t, ?_⟩
        rw [List.foldl_cons, if_neg hq, ht, List.append_assoc, List.singleton_append]

theorem extendLayout_append (qregs : List (List Nat)) :
    ∀ l : Layout, ∃ t, extendLayout l qregs = l ++ t := by
  induction qregs with
  | nil =>
      intro l
      exact ⟨[], by simp [extendLayout]⟩
  | cons reg rest ih =>
      intro l
      obtain ⟨t1, ht1⟩ := add_register_append reg l
      obtain ⟨t2, ht2⟩ := ih (add_register l reg)
      refine ⟨t1 ++ t2, ?_⟩
      unfold extendLayout at ht2 ⊢
      rw [List.foldl_cons, ht2, ht1, List.append_assoc]

/-- Extension over the declared registers preserves the assignments of the
chosen layout. -/
theorem lookupAssoc_extendLayout (l : Layout) (qregs : List (List Nat)) (k v : Nat)
    (h : lookupAssoc l k = some v) :
    lookupAssoc (extendLayout l qregs) k = some v := by
  obtain ⟨t, ht⟩ := extendLayout_append qregs l
  rw [ht]
  exact lookupAssoc_append l t k v h

/-- Looking up the logical qubit of a mapped interaction node in the built
layout returns the unshuffled physical qubit of its coupling node. -/
theorem lookup_mkLayout (nodes : List Nat) (f : Nat → Nat) (hnd : nodes.Nodup) :
    ∀ m : Mapping, (m.map Prod.snd).Nodup → (∀ p ∈ m, p.2 < nodes.length) →
      ∀ c x, (c, x) ∈ m →
        lookupAssoc (mkLayout nodes f m) (nodes.getD x 0) = some (f c) := by
  intro m
  induction m with
  | nil =>
      intro _ _ c x hm
      exact absurd hm (by simp)
  | cons p rest ih =>
      intro hnodup hlt c x hm
      obtain ⟨c0, x0⟩ := p
      rw [List.map_cons, List.nodup_cons] at hnodup
      unfold mkLayout
      rw [List.map_cons, lookupAssoc]
      by_cases heq : x0 = x
      · subst heq
        rw [if_pos rfl]
        rcases List.mem_cons.mp hm with hh | ht
        · rw [Prod.mk.injEq] at hh
          rw [hh.1]
        · exfalso
          exact hnodup.1 (List.mem_map.mpr ⟨(c, x0), ht, rfl⟩)
      · have hx0 : x0 < nodes.length := by
          simpa using hlt (c0, x0) (List.mem_cons_self _ _)
        have hx : x < nodes.length := by
          simpa using hlt (c, x) hm
        have hkey : nodes.getD x0 0 ≠ nodes.getD x 0 := by
          intro hk
          exact heq (getD_inj nodes hnd x0 x hx0 hx hk)
        rw [if_neg hkey]
        have hmem : (c, x) ∈ rest := by
          rcases List.mem_cons.mp hm with hh | ht
          · exfalso
            rw [Prod.mk.injEq] at hh
            exact heq hh.2.symm
          · exact ht
        exact ih hnodup.2 (fun p hp => hlt p (List.mem_cons_of_mem _ hp)) c x hmem

/-- The cm_nodes table maps every shuffled-graph edge back to an original
coupling edge. -/
theorem shuffle_edge_orig (cm : Graph) (seed : Int) (strict : Bool)
    (hwf : ∀ e ∈ cm.edges, e.1 < cm.numNodes ∧ e.2 < cm.numNodes) (x y : Nat)
    (hxy : (x, y) ∈ (shuffle_coupling_graph cm seed strict).1.edges) :
    ((shuffle_coupling_graph cm seed strict).2 x,
      (shuffle_coupling_graph cm seed strict).2 y) ∈ cm.edges := by
  unfold shuffle_coupling_graph at hxy ⊢
  by_cases hs : seed = -1
  · rw [if_pos hs] at hxy ⊢
    exact hxy
  · rw [if_neg hs] at hxy ⊢
    dsimp only at hxy ⊢
    rw [List.mem_map] at hxy
    obtain ⟨e, he, heq⟩ := hxy
    obtain ⟨a, b⟩ := e
    rw [Prod.mk.injEq] at heq
    obtain ⟨hx, hy⟩ := heq
    have ha := (hwf (a, b) he).1
    have hb := (hwf (a, b) he).2
    have hround : ∀ o : Nat, o < cm.numNodes →
        ((o + (cm.numNodes - seedOffset seed cm.numNodes)) % cm.numNodes +
          seedOffset seed cm.numNodes) % cm.numNodes = o := by
      intro o ho
      have hk : seedOffset seed cm.numNodes ≤ cm.numNodes := by
        unfold seedOffset
        split
        · omega
        · exact le_of_lt (Nat.mod_lt _ (by omega))
      rw [Nat.mod_add_mod]
      have harith : o + (cm.numNodes - seedOffset seed cm.numNodes) +
          seedOffset seed cm.numNodes = o + cm.numNodes := by omega
      rw [harith, Nat.add_mod_right]
      exact Nat.mod_eq_of_lt ho
    rw [← hx, ← hy]
    rw [hround a ha, hround b hb]
    exact he

/-- Direction-aware version of shuffle_edge_orig. -/
theorem shuffle_isEdge_orig (cm : Graph) (seed : Int) (strict : Bool)
    (hwf : ∀ e ∈ cm.edges, e.1 < cm.numNodes ∧ e.2 < cm.numNodes) (x y : Nat)
    (h : isEdge (shuffle_coupling_graph cm seed strict).1 strict x y) :
    isEdge cm strict ((shuffle_coupling_graph cm seed strict).2 x)
      ((shuffle_coupling_graph cm seed strict).2 y) := by
  rcases h with h | ⟨hstrict, h⟩
  · exact Or.inl (shuffle_edge_orig cm seed strict hwf x y h)
  · exact Or.inr ⟨hstrict, shuffle_edge_orig cm seed strict hwf y x h⟩

/-- The first component of updateBest is the candidate or the previous
retained layout. -/
theorem updateBest_fst_cases (cl : Option Layout) (cs : Option ℚ) (l : Layout) (sc : ℚ) :
    (updateBest cl cs l sc).1 = some l ∨ (updateBest cl cs l sc).1 = cl := by
  unfold updateBest
  rcases cl with _ | bl
  · left
    rfl
  · rcases cs with _ | bs
    · right
      rfl
    · dsimp only
      split
      · left
        rfl
      · right
        rfl

/-- The retained layout comes from one of the consumed mappings, unless it is
the incoming one. -/
theorem trialLoop_chosen_mem (cmg img : Graph) (nodes : List Nat) (f : Nat → Nat)
    (em : ErrorMap) (strict : Bool) (mt : Option Int) (tl : Option ℚ) (clock : Nat → ℚ)
    (ms : List Mapping) :
    ∀ s : LoopState,
      (trialLoop cmg img nodes f em strict mt tl clock ms s).chosen_layout =
          s.chosen_layout ∨
        ∃ m ∈ ms, (trialLoop cmg img nodes f em strict mt tl clock ms s).chosen_layout =
          some (mkLayout nodes f m) := by
  induction ms with
  | nil =>
      intro s
      left
      rfl
  | cons m rest ih =>
      intro s
      rw [trialLoop]
      split
      · right
        exact ⟨m, List.mem_cons_self _ _, by simp⟩
      · dsimp only
        split
        · rcases updateBest_fst_cases s.chosen_layout s.chosen_score (mkLayout nodes f m)
            (score_layout em (mkLayout nodes f m) nodes img strict) with hu | hu
          · right
            exact ⟨m, List.mem_cons_self _ _, hu⟩
          · left
            exact hu
        · split
          · rcases updateBest_fst_cases s.chosen_layout s.chosen_score (mkLayout nodes f m)
              (score_layout em (mkLayout nodes f m) nodes img strict) with hu | hu
            · right
              exact ⟨m, List.mem_cons_self _ _, hu⟩
            · left
              exact hu
          · rcases ih ⟨s.trials + 1, s.score_calls + 1,
                (updateBest s.chosen_layout s.chosen_score (mkLayout nodes f m)
                  (score_layout em (mkLayout nodes f m) nodes img strict)).1,
                (updateBest s.chosen_layout s.chosen_score (mkLayout nodes f m)
                  (score_layout em (mkLayout nodes f m) nodes img strict)).2⟩ with hr | hr
            · rcases updateBest_fst_cases s.chosen_layout s.chosen_score (mkLayout nodes f m)
                (score_layout em (mkLayout nodes f m) nodes img strict) with hu | hu
              · right
                exact ⟨m, List.mem_cons_self _ _, hr.trans hu⟩
              · left
                exact hr.trans hu
            · obtain ⟨m', hm', hr⟩ := hr
              right
              exact ⟨m', List.mem_cons_of_mem _ hm', hr⟩

/-- Search-phase core of the embedding claim: with a nonempty stream of valid
embeddings the search publishes SOLUTION_FOUND and a layout sending every
interaction edge to a coupling edge. -/
theorem searchResult_embedding (st1 : VF2Layout) (aem : ErrorMap) (cm img : Graph)
    (nodes : List Nat) (dag : DAGCircuit) (m0 : Mapping) (rest : List Mapping)
    (clock : Nat → ℚ)
    (hnd : nodes.Nodup) (hlen : img.numNodes = nodes.length)
    (hwf : ∀ e ∈ cm.edges, e.1 < cm.numNodes ∧ e.2 < cm.numNodes)
    (hvalid : ∀ m ∈ m0 :: rest, validEmbedding
      (shuffle_coupling_graph cm st1.seed st1.strict_direction).1 img
      st1.strict_direction m) :
    (searchResult st1 aem cm img nodes dag (m0 :: rest) clock).stop_reason =
      VF2LayoutStopReason.SOLUTION_FOUND ∧
    ∃ l, (searchResult st1 aem cm img nodes dag (m0 :: rest) clock).layout = some l ∧
      ∀ e ∈ img.edges, ∃ p q, lookupAssoc l (nodes.getD e.1 0) = some p ∧
        lookupAssoc l (nodes.getD e.2 0) = some q ∧ isEdge cm st1.strict_direction p q := by
  have hsome := trialLoop_cons_isSome
    (shuffle_coupling_graph cm st1.seed st1.strict_direction).1 img nodes
    (shuffle_coupling_graph cm st1.seed st1.strict_direction).2 aem
    st1.strict_direction (effectiveMaxTrials st1 img cm) st1.time_limit clock m0 rest
    ⟨0, 0, none, none⟩
  rw [Option.isSome_iff_exists] at hsome
  obtain ⟨cl, hcl⟩ := hsome
  have hmem := trialLoop_chosen_mem
    (shuffle_coupling_graph cm st1.seed st1.strict_direction).1 img nodes
    (shuffle_coupling_graph cm st1.seed st1.strict_direction).2 aem
    st1.strict_direction (effectiveMaxTrials st1 img cm) st1.time_limit clock (m0 :: rest)
    ⟨0, 0, none, none⟩
  rw [hcl] at hmem
  rcases hmem with hbad | ⟨mz, hmz, hclq⟩
  · exact absurd hbad (by simp)
  · rw [Option.some.injEq] at hclq
    subst hclq
    refine ⟨by simp [searchResult, hcl], extendLayout (mkLayout nodes
      (shuffle_coupling_graph cm st1.seed st1.strict_direction).2 mz) dag.qregs,
      by simp [searchResult, hcl], ?_⟩
    intro e he
    obtain ⟨hmnd, hmlt, hedges⟩ := hvalid mz hmz
    obtain ⟨p, hpmem, q, hqmem, hpe, hqe, hpq⟩ := hedges e he
    obtain ⟨pc, px⟩ := p
    obtain ⟨qc, qx⟩ := q
    dsimp only at hpe hqe hpq
    subst hpe
    subst hqe
    have hbound : ∀ pr ∈ mz, pr.2 < nodes.length := by
      intro pr hpr
      rw [← hlen]
      exact hmlt pr hpr
    refine ⟨(shuffle_coupling_graph cm st1.seed st1.strict_direction).2 pc,
      (shuffle_coupling_graph cm st1.seed st1.strict_direction).2 qc, ?_, ?_, ?_⟩
    · exact lookupAssoc_extendLayout _ _ _ _ (lookup_mkLayout nodes
        (shuffle_coupling_graph cm st1.seed st1.strict_direction).2 hnd mz hmnd hbound
        pc e.1 hpmem)
    · exact lookupAssoc_extendLayout _ _ _ _ (lookup_mkLayout nodes
        (shuffle_coupling_graph cm st1.seed st1.strict_direction).2 hnd mz hmnd hbound
        qc e.2 hqmem)
    · exact shuffle_isEdge_orig cm st1.seed st1.strict_direction hwf pc qc hpq

/-- C1: for every invocation whose candidate stream is nonempty and consists
of valid subgraph embeddings of the interaction graph into the (shuffled)
coupling graph, run stops with SOLUTION_FOUND and publishes a layout that
maps every interaction-graph edge to a coupling-graph edge, after the
seed-dependent node shuffle is undone through the cm_nodes table and
respecting strict_direction. -/
theorem vf2_run_solution_embedding (st : VF2Layout) (cm img : Graph) (nodes : List Nat)
    (dag : DAGCircuit) (ms : List Mapping) (clock : Nat → ℚ)
    (hcm : st.coupling_map = some cm)
    (hwf : ∀ e ∈ cm.edges, e.1 < cm.numNodes ∧ e.2 < cm.numNodes)
    (hbuild : build_interaction_graph dag st.strict_direction = some (img, nodes))
    (hne : ms ≠ [])
    (hvalid : ∀ m ∈ ms, validEmbedding
      (shuffle_coupling_graph cm st.seed st.strict_direction).1 img
      st.strict_direction m) :
    runStop st dag ms clock = some VF2LayoutStopReason.SOLUTION_FOUND ∧
    ∃ l, runLayoutKey st dag ms clock = some (some l) ∧
      ∀ e ∈ img.edges, ∃ p q, lookupAssoc l (nodes.getD e.1 0) = some p ∧
        lookupAssoc l (nodes.getD e.2 0) = some q ∧
        isEdge cm st.strict_direction p q := by
  cases ms with
  | nil => exact absurd rfl hne
  | cons m0 rest =>
      obtain ⟨hnodes, hnum⟩ := build_interaction_graph_parts dag st.strict_direction img
        nodes hbuild
      have hnd : nodes.Nodup := by
        rw [hnodes]
        exact interactionNodes_nodup dag.ops
      unfold runStop runLayoutKey runOutcome
      rw [run_enters_search st cm img nodes dag (m0 :: rest) clock hcm hbuild]
      have hres := searchResult_embedding (cacheErrorMap st (effectiveErrorMap st cm))
        (effectiveErrorMap st cm) cm img nodes dag m0 rest clock hnd hnum hwf
        (by simpa [cacheErrorMap] using hvalid)
      obtain ⟨hstop, l, hlay, hprop⟩ := hres
      refine ⟨by simp [Except.toOption, hstop], l, by simp [Except.toOption, hlay], ?_⟩
      simpa [cacheErrorMap] using hprop

/-- C1 witness: the end-to-end example with the identity embedding maps both
interaction edges onto coupling edges of cm0. -/
theorem vf2_run_solution_embedding_witness :
    runStop stA dag0 ms0 clk0 = some VF2LayoutStopReason.SOLUTION_FOUND ∧
    ∃ l, runLayoutKey stA dag0 ms0 clk0 = some (some l) ∧
      ∀ e ∈ (⟨3, [(0, 1), (1, 2)]⟩ : Graph).edges, ∃ p q,
        lookupAssoc l ([0, 1, 2].getD e.1 0) = some p ∧
        lookupAssoc l ([0, 1, 2].getD e.2 0) = some q ∧
        isEdge cm0 stA.strict_direction p q :=
  vf2_run_solution_embedding stA cm0 ⟨3, [(0, 1), (1, 2)]⟩ [0, 1, 2] dag0 ms0 clk0 rfl
    (by decide) (by decide) (by decide) (by decide)

/-- Retention from a retained layout keeps a populated score bounded by the
previous best score. -/
theorem updateBest_score_le (bl : Layout) (bs : ℚ) (l : Layout) (sc : ℚ) :
    ∃ v, (updateBest (some bl) (some bs) l sc).2 = some v ∧ v ≤ bs := by
  unfold updateBest
  dsimp only
  by_cases hlt : sc < bs
  · exact ⟨sc, by simp [hlt], le_of_lt hlt⟩
  · exact ⟨bs, by simp [hlt], le_refl bs⟩

/-- Retention populates the score whenever layout and score are in
lockstep. -/
theorem updateBest_snd_isSome (cl : Option Layout) (cs : Option ℚ) (l : Layout) (sc : ℚ)
    (hinv : cl.isSome = cs.isSome) : ((updateBest cl cs l sc).2).isSome = true := by
  unfold updateBest
  rcases cl with _ | bl
  · rfl
  · rcases cs with _ | bs
    · simp at hinv
    · dsimp only
      split <;> rfl

/-- Continuing the trial loop from a retained layout never worsens the
retained score. -/
theorem trialLoop_score_mono (cmg img : Graph) (nodes : List Nat) (f : Nat → Nat)
    (em : ErrorMap) (strict : Bool) (mt : Option Int) (tl : Option ℚ) (clock : Nat → ℚ)
    (ms : List Mapping) :
    ∀ (s : LoopState) (bs : ℚ), s.chosen_layout.isSome = true → s.chosen_score = some bs →
      ∃ v, (trialLoop cmg img nodes f em strict mt tl clock ms s).chosen_score = some v ∧
        v ≤ bs := by
  induction ms with
  | nil =>
      intro s bs _ hs
      exact ⟨bs, by simpa [trialLoop] using hs, le_refl bs⟩
  | cons m rest ih =>
      intro s bs h hs
      obtain ⟨bl, hbl⟩ := Option.isSome_iff_exists.mp h
      rw [trialLoop]
      split
      · exact ⟨bs, by simpa using hs, le_refl bs⟩
      · dsimp only
        rw [hbl, hs]
        obtain ⟨v, hv, hvle⟩ := updateBest_score_le bl bs (mkLayout nodes f m)
          (score_layout em (mkLayout nodes f m) nodes img strict)
        split
        · exact ⟨v, hv, hvle⟩
        · split
          · exact ⟨v, hv, hvle⟩
          · obtain ⟨w, hw, hwle⟩ := ih
              ⟨s.trials + 1, s.score_calls + 1,
                (updateBest (some bl) (some bs) (mkLayout nodes f m)
                  (score_layout em (mkLayout nodes f m) nodes img strict)).1,
                (updateBest (some bl) (some bs) (mkLayout nodes f m)
                  (score_layout em (mkLayout nodes f m) nodes img strict)).2⟩ v
              (updateBest_fst_isSome _ _ _ _) hv
            exact ⟨w, hw, le_trans hwle hvle⟩

/-- With positive caps, raising the trial cap never worsens the final
retained score. -/
theorem trialLoop_cap_mono (cmg img : Graph) (nodes : List Nat) (f : Nat → Nat)
    (em : ErrorMap) (strict : Bool) (tl : Option ℚ) (clock : Nat → ℚ)
    (t1 t2 : Int) (h0 : 0 < t1) (h12 : t1 ≤ t2) (ms : List Mapping) :
    ∀ s : LoopState, s.chosen_layout.isSome = s.chosen_score.isSome →
      ∀ v1, (trialLoop cmg img nodes f em strict (some t1) tl clock ms s).chosen_score =
          some v1 →
        ∃ v2, (trialLoop cmg img nodes f em strict (some t2) tl clock ms s).chosen_score =
            some v2 ∧ v2 ≤ v1 := by
  induction ms with
  | nil =>
      intro s hinv v1 h1
      rw [trialLoop] at h1
      exact ⟨v1, by simpa [trialLoop] using h1, le_refl v1⟩
  | cons m rest ih =>
      intro s hinv v1 h1
      rw [trialLoop] at h1
      rw [trialLoop]
      by_cases hsz : cmg.numNodes = img.numNodes
      · rw [if_pos hsz] at h1
        rw [if_pos hsz]
        exact ⟨v1, h1, le_refl v1⟩
      · rw [if_neg hsz] at h1
        rw [if_neg hsz]
        dsimp only at h1 ⊢
        have hinv' : ((updateBest s.chosen_layout s.chosen_score (mkLayout nodes f m)
            (score_layout em (mkLayout nodes f m) nodes img strict)).1).isSome =
            ((updateBest s.chosen_layout s.chosen_score (mkLayout nodes f m)
              (score_layout em (mkLayout nodes f m) nodes img strict)).2).isSome := by
          rw [updateBest_fst_isSome, updateBest_snd_isSome _ _ _ _ hinv]
        cases hc1 : capReached (some t1) (s.trials + 1) with
        | true =>
            rw [hc1, if_pos rfl] at h1
            cases hc2 : capReached (some t2) (s.trials + 1) with
            | true =>
                rw [if_pos rfl]
                exact ⟨v1, h1, le_refl v1⟩
            | false =>
                rw [if_neg Bool.false_ne_true]
                cases ht : timeExceeded tl (clock (s.trials + 1)) with
                | true =>
                    rw [if_pos rfl]
                    exact ⟨v1, h1, le_refl v1⟩
                | false =>
                    rw [if_neg Bool.false_ne_true]
                    exact trialLoop_score_mono cmg img nodes f em strict (some t2) tl clock
                      rest _ v1 (updateBest_fst_isSome _ _ _ _) h1
        | false =>
            have hc2 : capReached (some t2) (s.trials + 1) = false := by
              cases hx : capReached (some t2) (s.trials + 1) with
              | false => rfl
              | true =>
                  exfalso
                  simp only [capReached] at hx hc1
                  rw [Bool.and_eq_true, decide_eq_true_iff, decide_eq_true_iff] at hx
                  have hand : (decide (0 < t1) &&
                      decide (t1 ≤ ((s.trials + 1 : Nat) : Int))) = true := by
                    rw [Bool.and_eq_true, decide_eq_true_iff, decide_eq_true_iff]
                    exact ⟨h0, le_trans h12 hx.2⟩
                  rw [hand] at hc1
                  exact absurd hc1 (by simp)
            rw [hc1, if_neg Bool.false_ne_true] at h1
            rw [hc2, if_neg Bool.false_ne_true]
            cases ht : timeExceeded tl (clock (s.trials + 1)) with
            | true =>
                rw [ht, if_pos rfl] at h1
                rw [if_pos rfl]
                exact ⟨v1, h1, le_refl v1⟩
            | false =>
                rw [ht, if_neg Bool.false_ne_true] at h1
                rw [if_neg Bool.false_ne_true]
                exact ih _ hinv' v1 h1

/-- C10 (amended): for positive configured values of max_trials, increasing
the cap while holding the circuit, topology, seed, candidate stream and clock
fixed never increases the score of the finally chosen layout. -/
theorem vf2_max_trials_monotone_pos (st : VF2Layout) (dag : DAGCircuit) (ms : List Mapping)
    (clock : Nat → ℚ) (t1 t2 : Int) (h0 : 0 < t1) (h12 : t1 ≤ t2) :
    ∀ v1, chosenScoreOf { st with max_trials := some t1 } dag ms clock = some v1 →
      ∃ v2, chosenScoreOf { st with max_trials := some t2 } dag ms clock = some v2 ∧
        v2 ≤ v1 := by
  intro v1 h1
  rcases hcm : st.coupling_map with _ | cm
  · unfold chosenScoreOf runOutcome at h1
    simp [VF2Layout.run, hcm, Except.toOption] at h1
  · rcases hbuild : build_interaction_graph dag st.strict_direction with _ | im
    · unfold chosenScoreOf runOutcome at h1
      simp [VF2Layout.run, hcm, hbuild, Except.toOption] at h1
    · obtain ⟨img, nodes⟩ := im
      unfold chosenScoreOf runOutcome at h1 ⊢
      rw [run_enters_search _ cm img nodes dag ms clock (by simpa using hcm)
        (by simpa using hbuild)] at h1
      rw [run_enters_search _ cm img nodes dag ms clock (by simpa using hcm)
        (by simpa using hbuild)]
      simp only [searchResult, cacheErrorMap, effectiveErrorMap, effectiveMaxTrials,
        Option.isNone_some, Bool.false_and, Bool.false_eq_true, if_false, Except.toOption,
        Option.some_bind] at h1 ⊢
      exact trialLoop_cap_mono _ _ _ _ _ _ _ _ t1 t2 h0 h12 ms _ rfl v1 h1

/-- C10 witness: raising the cap from 1 to 2 on the two-candidate stream of
ms10 improves the chosen score from 5 to 3. -/
theorem vf2_max_trials_monotone_pos_witness : (3 : ℚ) ≤ 5 := by
  obtain ⟨v2, h2, hle⟩ := vf2_max_trials_monotone_pos (st10 0) dag1 ms10 clk0 1 2
    (by norm_num) (by norm_num) 5
    (by norm_num [chosenScoreOf, runOutcome, VF2Layout.run, st10, stA, dag1, ms10, clk0,
      cm0, em0, build_interaction_graph, hasBigOp, twoQubitPairs, interactionNodes, addNode,
      interactionEdges, addInteractionEdge, nodeIndex, shuffle_coupling_graph, searchResult,
      trialLoop, mkLayout, score_layout, lookupErr, lookupEdgeErr, lookupAssoc, updateBest,
      capReached, timeExceeded, effectiveMaxTrials, Except.toOption, build_average_error_map])
  have h3 : chosenScoreOf { st10 0 with max_trials := some (2 : Int) } dag1 ms10 clk0 =
      some 3 := by
    norm_num [chosenScoreOf, runOutcome, VF2Layout.run, st10, stA, dag1, ms10, clk0,
      cm0, em0, build_interaction_graph, hasBigOp, twoQubitPairs, interactionNodes, addNode,
      interactionEdges, addInteractionEdge, nodeIndex, shuffle_coupling_graph, searchResult,
      trialLoop, mkLayout, score_layout, lookupErr, lookupEdgeErr, lookupAssoc, updateBest,
      capReached, timeExceeded, effectiveMaxTrials, Except.toOption, build_average_error_map]
  rw [h2] at h3
  rw [Option.some.injEq] at h3
  rw [h3] at hle
  exact hle

/-- C10 counterexample: raising max_trials from 0 (the unlimited sentinel) to
1 increases the finally chosen score from 3 to 5 with everything else fixed,
so the chosen score is not monotonically non-increasing in max_trials over
its full signed range. -/
theorem vf2_max_trials_monotonicity_cex :
    (0 : Int) < 1 ∧
    chosenScoreOf (st10 0) dag1 ms10 clk0 = some 3 ∧
    chosenScoreOf (st10 1) dag1 ms10 clk0 = some 5 ∧
    ¬ ((5 : ℚ) ≤ 3) := by
  refine ⟨by decide, ?_, ?_, by norm_num⟩ <;>
    norm_num [chosenScoreOf, runOutcome, VF2Layout.run, st10, stA, dag1, ms10, clk0, cm0, em0,
      build_interaction_graph, hasBigOp, twoQubitPairs, interactionNodes, addNode,
      interactionEdges, addInteractionEdge, nodeIndex, shuffle_coupling_graph, searchResult,
      trialLoop, mkLayout, score_layout, lookupErr, lookupEdgeErr, lookupAssoc, updateBest,
      capReached, timeExceeded, effectiveMaxTrials, Except.toOption, build_average_error_map]
